import Mathlib

/-!
Verification of the calib cellular-automata engine (`src/calib.py`).

The embedding models grids as `List (List String)`, the process-wide
cell-state registry as an association list, and every fallible Python
operation (list indexing, dict lookup, `raise ValueError`) as `Option`
or `Except String`.
-/

set_option autoImplicit false

namespace Calib

/-- Sentinel returned for out-of-grid neighbor lookups (`BORDER_VALUE`). -/
def BORDER_VALUE : String := "border"

/-- Default fill value for freshly allocated grids (`EMPTY_VALUE`). -/
def EMPTY_VALUE : String := "empty"

/-- Model of the `Pattern` dataclass: dense token list plus neighborhood-type string. -/
structure Pattern where
  pattern : List String
  neighborhood_type : String
deriving Repr, DecidableEq

/-- Model of the `Cell` dataclass: state name, ordered rule list, opaque metadata. -/
structure Cell where
  name : String
  rules : List (Pattern × String)
  data : List (String × String)
deriving Repr, DecidableEq

/-- A grid is a row-major list of rows of state names. -/
abbrev Grid := List (List String)

/-- The process-wide registry `CELL_STATE_REGISTRY`, as an association list. -/
abbrev Registry := List (String × Cell)

/-- Dict lookup `CELL_STATE_REGISTRY[name]`; `none` models `KeyError`. -/
def registry_find : Registry → String → Option Cell
  | [], _ => none
  | (k, c) :: rest, name => if k = name then some c else registry_find rest name

/-- Dict assignment `d[name] = v` on an association list: replace the value
stored under `name` in place when present, append a fresh entry otherwise. -/
def registry_insert (reg : Registry) (name : String) (c : Cell) : Registry :=
  match reg with
  | [] => [(name, c)]
  | (k, v) :: rest =>
    if k = name then (name, c) :: rest else (k, v) :: registry_insert rest name c

/-- Model of `cell_state_register`: store a fresh `Cell` with empty rules under
`name`, overwriting any existing entry. -/
def cell_state_register (reg : Registry) (name : String)
    (kwargs : List (String × String)) : Registry :=
  registry_insert reg name (Cell.mk name [] kwargs)

/-- Model of `cell_state_add_new_rule`: reads `matching_pattern.pattern[0]` (IndexError
on an empty token list) and appends the rule to that state's list (KeyError
when the state is unregistered). -/
def cell_state_add_new_rule (reg : Registry) (matching_pattern : Pattern)
    (resulting_new_state : String) : Option Registry :=
  match matching_pattern.pattern with
  | [] => none
  | name :: _ =>
    match registry_find reg name with
    | none => none
    | some _ =>
      some (reg.map (fun kv =>
        if kv.1 = name then
          (kv.1, Cell.mk kv.2.name (kv.2.rules ++ [(matching_pattern, resulting_new_state)]) kv.2.data)
        else kv))

/-- Loop body of `_cell_pattern_match`: walks pattern and neighborhood in
lockstep; `none` models the IndexError hit when the neighborhood is shorter
than the pattern, `some false` the short-circuit on first mismatch. -/
def cpm_go : List String → List String → Option Bool
  | [], _ => some true
  | _ :: _, [] => none
  | p :: ps, n :: ns =>
    if p = "*" then cpm_go ps ns
    else if p = n then cpm_go ps ns
    else some false

/-- Model of `_cell_pattern_match`. -/
def cell_pattern_match (pat : Pattern) (neighborhood : List String) : Option Bool :=
  cpm_go pat.pattern neighborhood

/-- Moore offset table from `cell_pattern_create` (self first, clockwise). -/
def moore_positions : List (Int × Int) :=
  [(0, 0), (0, 1), (1, 1), (1, 0), (1, -1), (0, -1), (-1, -1), (-1, 0), (-1, 1)]

/-- Von Neumann offset table from `cell_pattern_create`. -/
def von_neumann_positions : List (Int × Int) :=
  [(0, 0), (0, 1), (1, 0), (0, -1), (-1, 0)]

/-- Fill loop of `cell_pattern_create`: start from all-wildcard tokens and
set the token at each offset's shape index, ignoring offsets outside the
shape. -/
def apply_parts (rule_parts : List ((Int × Int) × String))
    (positions : List (Int × Int)) : List String :=
  rule_parts.foldl
    (fun acc pr =>
      if positions.contains pr.1 then acc.set (positions.indexOf pr.1) pr.2 else acc)
    (positions.map (fun _ => "*"))

/-- Model of `cell_pattern_create`; `Except.error` models `raise ValueError`. -/
def cell_pattern_create (rule_parts : List ((Int × Int) × String))
    (neighborhood_type : String) : Except String Pattern :=
  if ((rule_parts.map Prod.fst).contains (0, 0)) = false then
    .error "Rule must contain (0, 0) offset (self)"
  else
    match neighborhood_type with
    | "moore" => .ok (Pattern.mk (apply_parts rule_parts moore_positions) "moore")
    | "von_neumann" => .ok (Pattern.mk (apply_parts rule_parts von_neumann_positions) "von_neumann")
    | _ => .error "Invalid neighborhood type"

/-- Access `arr[y][x]` as a fallible operation (`none` models IndexError). -/
def aget (arr : Grid) (y x : Nat) : Option String :=
  match arr[y]? with
  | none => none
  | some row => row[x]?

/-- Total accessor used only in specifications, at in-bounds positions. -/
def cellAt (arr : Grid) (y x : Nat) : String :=
  (arr.getD y []).getD x ""

/-- A guarded access `arr[yy][xx] if c else BORDER_VALUE`. -/
def bget (arr : Grid) (c : Prop) [Decidable c] (yy xx : Nat) : Option String :=
  if c then aget arr yy xx else some BORDER_VALUE

/-- Model of `_get_moore_neighborhood`. The guards are exactly those of the source:
`len(arr)` is the row count and `len(arr[y])` the current row's length. -/
def get_moore_neighborhood (arr : Grid) (x y : Nat) : Option (List String) :=
  (aget arr y x).bind fun c0 =>
  (bget arr (0 < y) (y - 1) x).bind fun c1 =>
  (bget arr (0 < y ∧ x < (arr.getD y []).length - 1) (y - 1) (x + 1)).bind fun c2 =>
  (bget arr (x < (arr.getD y []).length - 1) y (x + 1)).bind fun c3 =>
  (bget arr (y < arr.length - 1 ∧ x < (arr.getD y []).length - 1) (y + 1) (x + 1)).bind fun c4 =>
  (bget arr (y < arr.length - 1) (y + 1) x).bind fun c5 =>
  (bget arr (y < arr.length - 1 ∧ 0 < x) (y + 1) (x - 1)).bind fun c6 =>
  (bget arr (0 < x) y (x - 1)).bind fun c7 =>
  (bget arr (0 < y ∧ 0 < x) (y - 1) (x - 1)).bind fun c8 =>
  some [c0, c1, c2, c3, c4, c5, c6, c7, c8]

/-- Model of `_get_von_neuman_neighborhood`. -/
def get_von_neuman_neighborhood (arr : Grid) (x y : Nat) : Option (List String) :=
  (aget arr y x).bind fun c0 =>
  (bget arr (0 < y) (y - 1) x).bind fun c1 =>
  (bget arr (x < (arr.getD y []).length - 1) y (x + 1)).bind fun c2 =>
  (bget arr (y < arr.length - 1) (y + 1) x).bind fun c3 =>
  (bget arr (0 < x) y (x - 1)).bind fun c4 =>
  some [c0, c1, c2, c3, c4]

/-- The `NEIGHBORHOODS` dict dispatch; `none` models a `KeyError` on an
unknown neighborhood-type string. -/
def get_neighborhood (grid : Grid) (x y : Nat) : String → Option (List String)
  | "moore" => get_moore_neighborhood grid x y
  | "von_neumann" => get_von_neuman_neighborhood grid x y
  | _ => none

/-- The inner rule loop of `grid_step` for one cell: first matching rule's
result, or the cell's own state when the `for` loop falls through to `else`. -/
def run_rules (grid : Grid) (x y : Nat) (s : String) :
    List (Pattern × String) → Option String
  | [] => some s
  | (p, res) :: rest =>
    match get_neighborhood grid x y p.neighborhood_type with
    | none => none
    | some nb =>
      match cell_pattern_match p nb with
      | none => none
      | some true => some res
      | some false => run_rules grid x y s rest

/-- One cell of `grid_step`: registry lookup then the rule loop. -/
def step_cell (reg : Registry) (grid : Grid) (x y : Nat) (s : String) : Option String :=
  match registry_find reg s with
  | none => none
  | some c => run_rules grid x y s c.rules

/-- The assignment `new_grid[y][x] = v` (`none` models IndexError). -/
def set_cell (ng : Grid) (y x : Nat) (v : String) : Option Grid :=
  if x < (ng.getD y []).length then some (ng.set y ((ng.getD y []).set x v)) else none

/-- Inner `for x, cell_state_name in enumerate(row)` loop of `grid_step`,
threading the mutable `new_grid`. -/
def grid_step_row (reg : Registry) (grid : Grid) (y : Nat) :
    Nat → List String → Grid → Option Grid
  | _, [], ng => some ng
  | x, s :: rest, ng =>
    match step_cell reg grid x y s with
    | none => none
    | some v =>
      match set_cell ng y x v with
      | none => none
      | some ng2 => grid_step_row reg grid y (x + 1) rest ng2

/-- Outer `for y, row in enumerate(grid)` loop of `grid_step`. -/
def grid_step_rows (reg : Registry) (grid : Grid) :
    Nat → List (List String) → Grid → Option Grid
  | _, [], ng => some ng
  | y, row :: rest, ng =>
    match grid_step_row reg grid y 0 row ng with
    | none => none
    | some ng2 => grid_step_rows reg grid (y + 1) rest ng2

/-- Model of `grid_step`: allocate `new_grid` via the nested comprehension,
then run the nested loops. With zero rows the outer `range(len(grid))` is
empty, so the inner expression indexing `grid[0]` is never evaluated and the
allocation is the empty list; the loops do not run and the result is `[]`. -/
def grid_step (reg : Registry) (grid : Grid) : Option Grid :=
  match grid with
  | [] => some []
  | r0 :: _ =>
    grid_step_rows reg grid 0 grid
      (List.replicate grid.length (List.replicate r0.length EMPTY_VALUE))

/-- In-bounds predicate for a (row, column) position of an `hgt × w` grid. -/
abbrev inb (hgt w : Nat) (r c : Int) : Prop :=
  0 ≤ r ∧ r < hgt ∧ 0 ≤ c ∧ c < w

/-- The spec's access convention: offset `(dx, dy)` reads
`grid[y - dy][x + dx]`, substituting `BORDER_VALUE` out of bounds. -/
def offAccess (arr : Grid) (w x y : Nat) (off : Int × Int) : String :=
  if inb arr.length w ((y : Int) - off.2) ((x : Int) + off.1) then
    cellAt arr ((y : Int) - off.2).toNat ((x : Int) + off.1).toNat
  else BORDER_VALUE

/-- Dimension invariant: `ng` has `H` rows, each of length `w`. -/
def dims (ng : Grid) (H w : Nat) : Prop :=
  ng.length = H ∧ ∀ i, i < H → (ng.getD i []).length = w

/-- Setup of the sand-fall scenario: register `"empty"` and `"sand"`, then
add the two falling-sand rules exactly as the source's own demo does. -/
def sandScenarioRegistry : Option Registry :=
  let reg := cell_state_register [] "empty" [("color", "black")]
  let reg := cell_state_register reg "sand" [("color", "yellow")]
  match cell_pattern_create [((0, 0), "sand"), ((0, -1), "empty")] "moore" with
  | .error _ => none
  | .ok pA =>
    match cell_state_add_new_rule reg pA "empty" with
    | none => none
    | some reg2 =>
      match cell_pattern_create [((0, 0), "empty"), ((0, 1), "sand")] "moore" with
      | .error _ => none
      | .ok pB => cell_state_add_new_rule reg2 pB "sand"

/-- Scenario start: 4x4 all-empty grid with sand at row 1, col 1. -/
def sand_grid_0 : Grid :=
  [["empty", "empty", "empty", "empty"],
   ["empty", "sand", "empty", "empty"],
   ["empty", "empty", "empty", "empty"],
   ["empty", "empty", "empty", "empty"]]

/-- Expected grid after one step: sand at row 2, col 1. -/
def sand_grid_1 : Grid :=
  [["empty", "empty", "empty", "empty"],
   ["empty", "empty", "empty", "empty"],
   ["empty", "sand", "empty", "empty"],
   ["empty", "empty", "empty", "empty"]]

/-- Expected grid after two (and three) steps: sand at row 3, col 1. -/
def sand_grid_2 : Grid :=
  [["empty", "empty", "empty", "empty"],
   ["empty", "empty", "empty", "empty"],
   ["empty", "empty", "empty", "empty"],
   ["empty", "sand", "empty", "empty"]]

/-- Fixture pattern that fails to match on the fixture grid below. -/
def ruleP1 : Pattern := Pattern.mk ["b"] "von_neumann"

/-- Fixture pattern that matches on the fixture grid below. -/
def ruleP2 : Pattern := Pattern.mk ["a"] "von_neumann"

/-- Fixture registry: one state with two rules, the first of which fails. -/
def regTwoRules : Registry :=
  [("a", Cell.mk "a" [(ruleP1, "r1"), (ruleP2, "r2")] [])]

/-- Fixture grid for corner / witness checks. -/
def gridAB : Grid := [["a", "b"], ["c", "d"]]

theorem getD_eq_getElem_of_lt {α : Type} (l : List α) (i : Nat) (d : α)
    (h : i < l.length) : l.getD i d = l[i] := by
  rw [List.getD_eq_getElem?_getD, List.getElem?_eq_getElem h, Option.getD_some]

theorem getElem?_eq_some_getD {α : Type} (l : List α) (i : Nat) (d : α)
    (h : i < l.length) : l[i]? = some (l.getD i d) := by
  rw [List.getElem?_eq_getElem h, getD_eq_getElem_of_lt l i d h]

theorem getD_mem_of_lt {α : Type} (l : List α) (i : Nat) (d : α)
    (h : i < l.length) : l.getD i d ∈ l := by
  rw [getD_eq_getElem_of_lt l i d h]
  exact List.getElem_mem h

theorem getD_set_self {α : Type} (l : List α) (i : Nat) (a d : α)
    (h : i < l.length) : (l.set i a).getD i d = a := by
  rw [List.getD_eq_getElem?_getD, List.getElem?_set_self h, Option.getD_some]

theorem getD_set_ne {α : Type} (l : List α) (i j : Nat) (a d : α)
    (h : i ≠ j) : (l.set i a).getD j d = l.getD j d := by
  rw [List.getD_eq_getElem?_getD, List.getElem?_set_ne h, ← List.getD_eq_getElem?_getD]

theorem getD_replicate_of_lt {α : Type} (n i : Nat) (a d : α)
    (h : i < n) : (List.replicate n a).getD i d = a := by
  rw [List.getD_eq_getElem?_getD, List.getElem?_replicate, if_pos h, Option.getD_some]

theorem row_len (arr : Grid) (w : Nat) (hrect : ∀ row ∈ arr, row.length = w)
    (y : Nat) (hy : y < arr.length) : (arr.getD y []).length = w :=
  hrect (arr.getD y []) (getD_mem_of_lt arr y [] hy)

theorem aget_eq (arr : Grid) (y x : Nat) (hy : y < arr.length)
    (hx : x < (arr.getD y []).length) : aget arr y x = some (cellAt arr y x) := by
  unfold aget cellAt
  rw [getElem?_eq_some_getD arr y [] hy]
  exact getElem?_eq_some_getD (arr.getD y []) x "" hx

theorem bget_eq (arr : Grid) (c : Prop) [Decidable c] (yy xx : Nat)
    (h : c → yy < arr.length ∧ xx < (arr.getD yy []).length) :
    bget arr c yy xx = some (if c then cellAt arr yy xx else BORDER_VALUE) := by
  unfold bget
  by_cases hc : c
  · rw [if_pos hc, if_pos hc, aget_eq arr yy xx (h hc).1 (h hc).2]
  · rw [if_neg hc, if_neg hc]

theorem moore_closed (arr : Grid) (w x y : Nat)
    (hrect : ∀ row ∈ arr, row.length = w) (hy : y < arr.length) (hx : x < w) :
    get_moore_neighborhood arr x y = some [
      cellAt arr y x,
      if 0 < y then cellAt arr (y - 1) x else BORDER_VALUE,
      if 0 < y ∧ x < w - 1 then cellAt arr (y - 1) (x + 1) else BORDER_VALUE,
      if x < w - 1 then cellAt arr y (x + 1) else BORDER_VALUE,
      if y < arr.length - 1 ∧ x < w - 1 then cellAt arr (y + 1) (x + 1) else BORDER_VALUE,
      if y < arr.length - 1 then cellAt arr (y + 1) x else BORDER_VALUE,
      if y < arr.length - 1 ∧ 0 < x then cellAt arr (y + 1) (x - 1) else BORDER_VALUE,
      if 0 < x then cellAt arr y (x - 1) else BORDER_VALUE,
      if 0 < y ∧ 0 < x then cellAt arr (y - 1) (x - 1) else BORDER_VALUE ] := by
  have hw : (arr.getD y []).length = w := row_len arr w hrect y hy
  have hx' : x < (arr.getD y []).length := by omega
  unfold get_moore_neighborhood
  simp only [hw]
  rw [aget_eq arr y x hy hx']
  simp only [
    bget_eq arr (0 < y) (y - 1) x
      (fun hc => ⟨by omega, by rw [row_len arr w hrect (y - 1) (by omega)]; omega⟩),
    bget_eq arr (0 < y ∧ x < w - 1) (y - 1) (x + 1)
      (fun hc => ⟨by omega, by rw [row_len arr w hrect (y - 1) (by omega)]; omega⟩),
    bget_eq arr (x < w - 1) y (x + 1)
      (fun hc => ⟨hy, by rw [hw]; omega⟩),
    bget_eq arr (y < arr.length - 1 ∧ x < w - 1) (y + 1) (x + 1)
      (fun hc => ⟨by omega, by rw [row_len arr w hrect (y + 1) (by omega)]; omega⟩),
    bget_eq arr (y < arr.length - 1) (y + 1) x
      (fun hc => ⟨by omega, by rw [row_len arr w hrect (y + 1) (by omega)]; omega⟩),
    bget_eq arr (y < arr.length - 1 ∧ 0 < x) (y + 1) (x - 1)
      (fun hc => ⟨by omega, by rw [row_len arr w hrect (y + 1) (by omega)]; omega⟩),
    bget_eq arr (0 < x) y (x - 1)
      (fun hc => ⟨hy, by rw [hw]; omega⟩),
    bget_eq arr (0 < y ∧ 0 < x) (y - 1) (x - 1)
      (fun hc => ⟨by omega, by rw [row_len arr w hrect (y - 1) (by omega)]; omega⟩),
    Option.some_bind]

theorem von_closed (arr : Grid) (w x y : Nat)
    (hrect : ∀ row ∈ arr, row.length = w) (hy : y < arr.length) (hx : x < w) :
    get_von_neuman_neighborhood arr x y = some [
      cellAt arr y x,
      if 0 < y then cellAt arr (y - 1) x else BORDER_VALUE,
      if x < w - 1 then cellAt arr y (x + 1) else BORDER_VALUE,
      if y < arr.length - 1 then cellAt arr (y + 1) x else BORDER_VALUE,
      if 0 < x then cellAt arr y (x - 1) else BORDER_VALUE ] := by
  have hw : (arr.getD y []).length = w := row_len arr w hrect y hy
  have hx' : x < (arr.getD y []).length := by omega
  unfold get_von_neuman_neighborhood
  simp only [hw]
  rw [aget_eq arr y x hy hx']
  simp only [
    bget_eq arr (0 < y) (y - 1) x
      (fun hc => ⟨by omega, by rw [row_len arr w hrect (y - 1) (by omega)]; omega⟩),
    bget_eq arr (x < w - 1) y (x + 1)
      (fun hc => ⟨hy, by rw [hw]; omega⟩),
    bget_eq arr (y < arr.length - 1) (y + 1) x
      (fun hc => ⟨by omega, by rw [row_len arr w hrect (y + 1) (by omega)]; omega⟩),
    bget_eq arr (0 < x) y (x - 1)
      (fun hc => ⟨hy, by rw [hw]; omega⟩),
    Option.some_bind]

theorem comp_eq (arr : Grid) (w x y : Nat) (c : Prop) [Decidable c] (yy xx : Nat)
    (off : Int × Int)
    (hiff : c ↔ inb arr.length w ((y : Int) - off.2) ((x : Int) + off.1))
    (hyy : c → ((y : Int) - off.2).toNat = yy)
    (hxx : c → ((x : Int) + off.1).toNat = xx) :
    (if c then cellAt arr yy xx else BORDER_VALUE) = offAccess arr w x y off := by
  unfold offAccess
  by_cases hc : c
  · rw [if_pos hc, if_pos (hiff.mp hc), hyy hc, hxx hc]
  · rw [if_neg hc, if_neg (fun h => hc (hiff.mpr h))]

theorem cellAt_ne_border (arr : Grid) (yy xx : Nat)
    (hB : ∀ row ∈ arr, ∀ s ∈ row, s ≠ BORDER_VALUE)
    (hyy : yy < arr.length) (hxx : xx < (arr.getD yy []).length) :
    cellAt arr yy xx ≠ BORDER_VALUE :=
  hB (arr.getD yy []) (getD_mem_of_lt arr yy [] hyy)
    ((arr.getD yy []).getD xx "") (getD_mem_of_lt (arr.getD yy []) xx "" hxx)

theorem border_comp_iff (arr : Grid) (w x y : Nat)
    (hB : ∀ row ∈ arr, ∀ s ∈ row, s ≠ BORDER_VALUE)
    (c : Prop) [Decidable c] (yy xx : Nat) (off : Int × Int)
    (hiff : c ↔ inb arr.length w ((y : Int) - off.2) ((x : Int) + off.1))
    (hyy : c → yy < arr.length) (hxx : c → xx < (arr.getD yy []).length) :
    ((if c then cellAt arr yy xx else BORDER_VALUE) = BORDER_VALUE ↔
      ¬ inb arr.length w ((y : Int) - off.2) ((x : Int) + off.1)) := by
  by_cases hc : c
  · rw [if_pos hc]
    exact iff_of_false (cellAt_ne_border arr yy xx hB (hyy hc) (hxx hc))
      (not_not_intro (hiff.mp hc))
  · rw [if_neg hc]
    exact iff_of_true rfl (fun h => hc (hiff.mpr h))

/-- Claim C4: for every rectangular grid and in-bounds cell, each extractor
returns exactly the shape's fixed offset list mapped through the access
convention `grid[y - dy][x + dx]` (positive `dy` means up), so element 0 is
always the cell itself `G[y][x]`. -/
theorem neighborhood_offset_order (arr : Grid) (w x y : Nat)
    (hrect : ∀ row ∈ arr, row.length = w) (hy : y < arr.length) (hx : x < w) :
    get_moore_neighborhood arr x y = some (moore_positions.map (offAccess arr w x y)) ∧
    get_von_neuman_neighborhood arr x y = some (von_neumann_positions.map (offAccess arr w x y)) ∧
    (moore_positions.map (offAccess arr w x y)).getD 0 "" = cellAt arr y x ∧
    (von_neumann_positions.map (offAccess arr w x y)).getD 0 "" = cellAt arr y x := by
  have h00 : offAccess arr w x y (0, 0) = cellAt arr y x := by
    unfold offAccess
    rw [if_pos (show inb arr.length w ((y : Int) - ((0, 0) : Int × Int).2)
      ((x : Int) + ((0, 0) : Int × Int).1) by omega)]
    congr 1
  have h1 : (if 0 < y then cellAt arr (y - 1) x else BORDER_VALUE) = offAccess arr w x y (0, 1) :=
    comp_eq arr w x y (0 < y) (y - 1) x (0, 1) (by omega)
      (fun hc => by omega) (fun hc => by omega)
  have h2 : (if 0 < y ∧ x < w - 1 then cellAt arr (y - 1) (x + 1) else BORDER_VALUE) =
      offAccess arr w x y (1, 1) :=
    comp_eq arr w x y (0 < y ∧ x < w - 1) (y - 1) (x + 1) (1, 1) (by omega)
      (fun hc => by omega) (fun hc => by omega)
  have h3 : (if x < w - 1 then cellAt arr y (x + 1) else BORDER_VALUE) =
      offAccess arr w x y (1, 0) :=
    comp_eq arr w x y (x < w - 1) y (x + 1) (1, 0) (by omega)
      (fun hc => by omega) (fun hc => by omega)
  have h4 : (if y < arr.length - 1 ∧ x < w - 1 then cellAt arr (y + 1) (x + 1) else BORDER_VALUE) =
      offAccess arr w x y (1, -1) :=
    comp_eq arr w x y (y < arr.length - 1 ∧ x < w - 1) (y + 1) (x + 1) (1, -1) (by omega)
      (fun hc => by omega) (fun hc => by omega)
  have h5 : (if y < arr.length - 1 then cellAt arr (y + 1) x else BORDER_VALUE) =
      offAccess arr w x y (0, -1) :=
    comp_eq arr w x y (y < arr.length - 1) (y + 1) x (0, -1) (by omega)
      (fun hc => by omega) (fun hc => by omega)
  have h6 : (if y < arr.length - 1 ∧ 0 < x then cellAt arr (y + 1) (x - 1) else BORDER_VALUE) =
      offAccess arr w x y (-1, -1) :=
    comp_eq arr w x y (y < arr.length - 1 ∧ 0 < x) (y + 1) (x - 1) (-1, -1) (by omega)
      (fun hc => by omega) (fun hc => by omega)
  have h7 : (if 0 < x then cellAt arr y (x - 1) else BORDER_VALUE) =
      offAccess arr w x y (-1, 0) :=
    comp_eq arr w x y (0 < x) y (x - 1) (-1, 0) (by omega)
      (fun hc => by omega) (fun hc => by omega)
  have h8 : (if 0 < y ∧ 0 < x then cellAt arr (y - 1) (x - 1) else BORDER_VALUE) =
      offAccess arr w x y (-1, 1) :=
    comp_eq arr w x y (0 < y ∧ 0 < x) (y - 1) (x - 1) (-1, 1) (by omega)
      (fun hc => by omega) (fun hc => by omega)
  refine ⟨?_, ?_, ?_, ?_⟩
  · rw [moore_closed arr w x y hrect hy hx]
    simp only [moore_positions, List.map_cons, List.map_nil]
    rw [h00, h1, h2, h3, h4, h5, h6, h7, h8]
  · rw [von_closed arr w x y hrect hy hx]
    simp only [von_neumann_positions, List.map_cons, List.map_nil]
    rw [h00, h1, h3, h5, h7]
  · simp only [moore_positions, List.map_cons, List.getD_cons_zero]
    exact h00
  · simp only [von_neumann_positions, List.map_cons, List.getD_cons_zero]
    exact h00

/-- Witness for C4 at a concrete 2x2 grid and its top-left corner. -/
theorem neighborhood_offset_order_witness :
    get_moore_neighborhood gridAB 0 0 = some (moore_positions.map (offAccess gridAB 2 0 0)) ∧
    get_von_neuman_neighborhood gridAB 0 0 = some (von_neumann_positions.map (offAccess gridAB 2 0 0)) ∧
    (moore_positions.map (offAccess gridAB 2 0 0)).getD 0 "" = cellAt gridAB 0 0 ∧
    (von_neumann_positions.map (offAccess gridAB 2 0 0)).getD 0 "" = cellAt gridAB 0 0 :=
  neighborhood_offset_order gridAB 2 0 0 (by decide) (by decide) (by decide)

/-- Claim C3: on every rectangular grid whose cells never hold the BORDER
sentinel, at every in-bounds cell, both extractors succeed and yield
`BORDER_VALUE` at exactly the offsets whose accessed position is out of
bounds. -/
theorem neighborhood_border_exact (arr : Grid) (w x y : Nat)
    (hrect : ∀ row ∈ arr, row.length = w) (hy : y < arr.length) (hx : x < w)
    (hB : ∀ row ∈ arr, ∀ s ∈ row, s ≠ BORDER_VALUE) :
    ∃ nbM nbV,
      get_moore_neighborhood arr x y = some nbM ∧
      get_von_neuman_neighborhood arr x y = some nbV ∧
      (∀ k, k < 9 → (nbM.getD k "" = BORDER_VALUE ↔
        ¬ inb arr.length w ((y : Int) - (moore_positions.getD k (0, 0)).2)
          ((x : Int) + (moore_positions.getD k (0, 0)).1))) ∧
      (∀ k, k < 5 → (nbV.getD k "" = BORDER_VALUE ↔
        ¬ inb arr.length w ((y : Int) - (von_neumann_positions.getD k (0, 0)).2)
          ((x : Int) + (von_neumann_positions.getD k (0, 0)).1))) := by
  refine ⟨_, _, moore_closed arr w x y hrect hy hx, von_closed arr w x y hrect hy hx, ?_, ?_⟩
  · intro k hk
    interval_cases k <;>
      simp only [moore_positions, List.getD_cons_zero, List.getD_cons_succ]
    · exact iff_of_false
        (cellAt_ne_border arr y x hB hy (by rw [row_len arr w hrect y hy]; omega))
        (not_not_intro (by omega))
    · exact border_comp_iff arr w x y hB (0 < y) (y - 1) x (0, 1) (by omega)
        (fun hc => by omega) (fun hc => by rw [row_len arr w hrect (y - 1) (by omega)]; omega)
    · exact border_comp_iff arr w x y hB (0 < y ∧ x < w - 1) (y - 1) (x + 1) (1, 1) (by omega)
        (fun hc => by omega) (fun hc => by rw [row_len arr w hrect (y - 1) (by omega)]; omega)
    · exact border_comp_iff arr w x y hB (x < w - 1) y (x + 1) (1, 0) (by omega)
        (fun hc => by omega) (fun hc => by rw [row_len arr w hrect y hy]; omega)
    · exact border_comp_iff arr w x y hB (y < arr.length - 1 ∧ x < w - 1) (y + 1) (x + 1) (1, -1)
        (by omega) (fun hc => by omega)
        (fun hc => by rw [row_len arr w hrect (y + 1) (by omega)]; omega)
    · exact border_comp_iff arr w x y hB (y < arr.length - 1) (y + 1) x (0, -1) (by omega)
        (fun hc => by omega) (fun hc => by rw [row_len arr w hrect (y + 1) (by omega)]; omega)
    · exact border_comp_iff arr w x y hB (y < arr.length - 1 ∧ 0 < x) (y + 1) (x - 1) (-1, -1)
        (by omega) (fun hc => by omega)
        (fun hc => by rw [row_len arr w hrect (y + 1) (by omega)]; omega)
    · exact border_comp_iff arr w x y hB (0 < x) y (x - 1) (-1, 0) (by omega)
        (fun hc => by omega) (fun hc => by rw [row_len arr w hrect y hy]; omega)
    · exact border_comp_iff arr w x y hB (0 < y ∧ 0 < x) (y - 1) (x - 1) (-1, 1) (by omega)
        (fun hc => by omega) (fun hc => by rw [row_len arr w hrect (y - 1) (by omega)]; omega)
  · intro k hk
    interval_cases k <;>
      simp only [von_neumann_positions, List.getD_cons_zero, List.getD_cons_succ]
    · exact iff_of_false
        (cellAt_ne_border arr y x hB hy (by rw [row_len arr w hrect y hy]; omega))
        (not_not_intro (by omega))
    · exact border_comp_iff arr w x y hB (0 < y) (y - 1) x (0, 1) (by omega)
        (fun hc => by omega) (fun hc => by rw [row_len arr w hrect (y - 1) (by omega)]; omega)
    · exact border_comp_iff arr w x y hB (x < w - 1) y (x + 1) (1, 0) (by omega)
        (fun hc => by omega) (fun hc => by rw [row_len arr w hrect y hy]; omega)
    · exact border_comp_iff arr w x y hB (y < arr.length - 1) (y + 1) x (0, -1) (by omega)
        (fun hc => by omega) (fun hc => by rw [row_len arr w hrect (y + 1) (by omega)]; omega)
    · exact border_comp_iff arr w x y hB (0 < x) y (x - 1) (-1, 0) (by omega)
        (fun hc => by omega) (fun hc => by rw [row_len arr w hrect y hy]; omega)

/-- Witness for C3 at a concrete 2x2 grid and its top-left corner. -/
theorem neighborhood_border_exact_witness :
    ∃ nbM nbV,
      get_moore_neighborhood gridAB 0 0 = some nbM ∧
      get_von_neuman_neighborhood gridAB 0 0 = some nbV ∧
      (∀ k, k < 9 → (nbM.getD k "" = BORDER_VALUE ↔
        ¬ inb gridAB.length 2 ((0 : Int) - (moore_positions.getD k (0, 0)).2)
          ((0 : Int) + (moore_positions.getD k (0, 0)).1))) ∧
      (∀ k, k < 5 → (nbV.getD k "" = BORDER_VALUE ↔
        ¬ inb gridAB.length 2 ((0 : Int) - (von_neumann_positions.getD k (0, 0)).2)
          ((0 : Int) + (von_neumann_positions.getD k (0, 0)).1))) :=
  neighborhood_border_exact gridAB 2 0 0 (by decide) (by decide) (by decide) (by decide)

theorem cpm_go_spec : ∀ (toks nb : List String), nb.length = toks.length →
    (cpm_go toks nb).isSome = true ∧
    (cpm_go toks nb = some true ↔
      ∀ i, i < toks.length → toks.getD i "" = "*" ∨ toks.getD i "" = nb.getD i "") := by
  intro toks
  induction toks with
  | nil =>
    intro nb h
    exact ⟨rfl, by simp [cpm_go]⟩
  | cons p ps IH =>
    intro nb h
    cases nb with
    | nil => simp at h
    | cons n ns =>
      have h' : ns.length = ps.length := by simpa using h
      obtain ⟨IH1, IH2⟩ := IH ns h'
      by_cases hp : p = "*"
      · have hgo : cpm_go (p :: ps) (n :: ns) = cpm_go ps ns := by simp [cpm_go, hp]
        refine ⟨by rw [hgo]; exact IH1, ?_⟩
        rw [hgo, IH2]
        constructor
        · intro hall i hi
          simp only [List.length_cons] at hi
          cases i with
          | zero => left; simpa [List.getD_cons_zero] using hp
          | succ j =>
            have := hall j (by omega)
            simpa [List.getD_cons_succ] using this
        · intro hall i hi
          have := hall (i + 1) (by simp only [List.length_cons]; omega)
          simpa [List.getD_cons_succ] using this
      · by_cases hpn : p = n
        · have hgo : cpm_go (p :: ps) (n :: ns) = cpm_go ps ns := by simp [cpm_go, hp, hpn]
          refine ⟨by rw [hgo]; exact IH1, ?_⟩
          rw [hgo, IH2]
          constructor
          · intro hall i hi
            simp only [List.length_cons] at hi
            cases i with
            | zero => right; simpa [List.getD_cons_zero] using hpn
            | succ j =>
              have := hall j (by omega)
              simpa [List.getD_cons_succ] using this
          · intro hall i hi
            have := hall (i + 1) (by simp only [List.length_cons]; omega)
            simpa [List.getD_cons_succ] using this
        · have hgo : cpm_go (p :: ps) (n :: ns) = some false := by simp [cpm_go, hp, hpn]
          refine ⟨by rw [hgo]; rfl, ?_⟩
          rw [hgo]
          constructor
          · intro hfalse
            exact absurd hfalse (by simp)
          · intro hall
            have := hall 0 (by simp only [List.length_cons]; omega)
            simp [List.getD_cons_zero] at this
            tauto

/-- Claim C2: for every pattern and every neighborhood of the same length,
the matcher never errors, and it returns `true` iff every non-wildcard token
equals the neighborhood entry at the same index (so an all-wildcard pattern
matches anything of its length, BORDER entries included). -/
theorem cell_pattern_match_iff (toks : List String) (t : String) (nb : List String)
    (h : nb.length = toks.length) :
    (cell_pattern_match (Pattern.mk toks t) nb).isSome = true ∧
    (cell_pattern_match (Pattern.mk toks t) nb = some true ↔
      ∀ i, i < toks.length → toks.getD i "" = "*" ∨ toks.getD i "" = nb.getD i "") :=
  cpm_go_spec toks nb h

/-- Witness for C2: a wildcard-plus-concrete pattern against a neighborhood
containing BORDER. -/
theorem cell_pattern_match_iff_witness :
    (["border", "a"] : List String).length = (["*", "a"] : List String).length ∧
    ((cell_pattern_match (Pattern.mk ["*", "a"] "moore") ["border", "a"]).isSome = true ∧
      (cell_pattern_match (Pattern.mk ["*", "a"] "moore") ["border", "a"] = some true ↔
        ∀ i, i < (["*", "a"] : List String).length →
          (["*", "a"] : List String).getD i "" = "*" ∨
          (["*", "a"] : List String).getD i "" = (["border", "a"] : List String).getD i "")) :=
  ⟨rfl, cell_pattern_match_iff ["*", "a"] "moore" ["border", "a"] rfl⟩

/-- Claim C5: `cell_pattern_create` fails with the missing-self error when
the sparse offset map omits `(0, 0)`, and with the unknown-shape error when
the shape string is neither `"moore"` nor `"von_neumann"`; in both cases no
pattern is returned. -/
theorem cell_pattern_create_config_errors (rule_parts : List ((Int × Int) × String))
    (t : String) :
    (((rule_parts.map Prod.fst).contains (0, 0)) = false →
      cell_pattern_create rule_parts t = .error "Rule must contain (0, 0) offset (self)") ∧
    (((rule_parts.map Prod.fst).contains (0, 0)) = true → t ≠ "moore" → t ≠ "von_neumann" →
      cell_pattern_create rule_parts t = .error "Invalid neighborhood type") := by
  constructor
  · intro h
    unfold cell_pattern_create
    rw [h, if_pos rfl]
  · intro h h1 h2
    unfold cell_pattern_create
    rw [h, if_neg (by simp)]
    split
    · simp_all
    · simp_all
    · rfl

/-- Witness for C5: a map without the self offset, and an unknown shape. -/
theorem cell_pattern_create_config_errors_witness :
    cell_pattern_create [] "moore" = .error "Rule must contain (0, 0) offset (self)" ∧
    cell_pattern_create [((0, 0), "x")] "hex" = .error "Invalid neighborhood type" :=
  ⟨(cell_pattern_create_config_errors [] "moore").1 rfl,
    (cell_pattern_create_config_errors [((0, 0), "x")] "hex").2 (by decide)
      (by decide) (by decide)⟩

theorem find_insert_self (reg : Registry) (n : String) (c : Cell) :
    registry_find (registry_insert reg n c) n = some c := by
  induction reg with
  | nil => simp [registry_insert, registry_find]
  | cons kv rest IH =>
    obtain ⟨k, v⟩ := kv
    by_cases hk : k = n
    · subst hk
      simp [registry_insert, registry_find]
    · simp [registry_insert, registry_find, hk, IH]

theorem find_insert_ne (reg : Registry) (n : String) (c : Cell) (o : String)
    (ho : o ≠ n) :
    registry_find (registry_insert reg n c) o = registry_find reg o := by
  have hn : ¬ (n = o) := fun hh => ho hh.symm
  induction reg with
  | nil => simp [registry_insert, registry_find, hn]
  | cons kv rest IH =>
    obtain ⟨k, v⟩ := kv
    by_cases hk : k = n
    · subst hk
      simp [registry_insert, registry_find, hn]
    · by_cases hko : k = o
      · subst hko
        simp [registry_insert, registry_find, hk]
      · simp [registry_insert, registry_find, hk, hko, IH]

theorem find_register_self (reg : Registry) (n : String) (kw : List (String × String)) :
    registry_find (cell_state_register reg n kw) n = some (Cell.mk n [] kw) :=
  find_insert_self reg n (Cell.mk n [] kw)

theorem find_register_ne (reg : Registry) (n : String) (kw : List (String × String))
    (o : String) (ho : o ≠ n) :
    registry_find (cell_state_register reg n kw) o = registry_find reg o :=
  find_insert_ne reg n (Cell.mk n [] kw) o ho

/-- Counterexample to C7: the code performs no sentinel check, so registering
the `BORDER_VALUE` (or `EMPTY_VALUE`) id yields a registry entry whose id
collides with that sentinel. -/
theorem register_sentinel_collision_counterexample :
    registry_find (cell_state_register [] BORDER_VALUE []) BORDER_VALUE =
      some (Cell.mk BORDER_VALUE [] []) ∧
    registry_find (cell_state_register [] EMPTY_VALUE []) EMPTY_VALUE =
      some (Cell.mk EMPTY_VALUE [] []) := by
  exact ⟨by decide, by decide⟩

/-- Claim C7 (amended): `cell_state_register` enforces no sentinel
non-collision invariant — registering an id equal to `BORDER_VALUE` or
`EMPTY_VALUE` succeeds and stores a registry entry under that sentinel id. -/
theorem register_sentinel_no_check (reg : Registry) (kw : List (String × String)) :
    registry_find (cell_state_register reg BORDER_VALUE kw) BORDER_VALUE =
      some (Cell.mk BORDER_VALUE [] kw) ∧
    registry_find (cell_state_register reg EMPTY_VALUE kw) EMPTY_VALUE =
      some (Cell.mk EMPTY_VALUE [] kw) :=
  ⟨find_register_self reg BORDER_VALUE kw, find_register_self reg EMPTY_VALUE kw⟩

/-- Claim C8: re-registering an existing state id destructively overwrites
it — the stored cell gets the new metadata and an empty rule list — while
every other id's lookup is unchanged. -/
theorem reregister_overwrites (reg : Registry) (name : String)
    (kw : List (String × String)) (c : Cell)
    (_h : registry_find reg name = some c) :
    registry_find (cell_state_register reg name kw) name = some (Cell.mk name [] kw) ∧
    ∀ o, o ≠ name → registry_find (cell_state_register reg name kw) o = registry_find reg o :=
  ⟨find_register_self reg name kw, fun o ho => find_register_ne reg name kw o ho⟩

/-- Witness for C8: register `"a"`, give it a rule, re-register it. -/
theorem reregister_overwrites_witness :
    registry_find (cell_state_register regTwoRules "a" [("m", "2")]) "a" =
      some (Cell.mk "a" [] [("m", "2")]) ∧
    ∀ o, o ≠ "a" →
      registry_find (cell_state_register regTwoRules "a" [("m", "2")]) o =
        registry_find regTwoRules o :=
  reregister_overwrites regTwoRules "a" [("m", "2")]
    (Cell.mk "a" [(ruleP1, "r1"), (ruleP2, "r2")] []) (by decide)

theorem set_cell_spec (ng : Grid) (y x : Nat) (v : String) (ng2 : Grid)
    (h : set_cell ng y x v = some ng2) :
    x < (ng.getD y []).length ∧ ng2 = ng.set y ((ng.getD y []).set x v) := by
  unfold set_cell at h
  by_cases hx : x < (ng.getD y []).length
  · rw [if_pos hx] at h
    exact ⟨hx, (Option.some_inj.mp h).symm⟩
  · rw [if_neg hx] at h
    exact absurd h (by simp)

theorem dims_set (ng : Grid) (H w y x : Nat) (v : String)
    (hd : dims ng H w) (hy : y < H) :
    dims (ng.set y ((ng.getD y []).set x v)) H w := by
  obtain ⟨h1, h2⟩ := hd
  refine ⟨by rw [List.length_set]; exact h1, ?_⟩
  intro i hi
  by_cases hiy : i = y
  · subst hiy
    rw [getD_set_self ng i ((ng.getD i []).set x v) [] (by rw [h1]; exact hi)]
    rw [List.length_set]
    exact h2 i hi
  · rw [getD_set_ne ng y i ((ng.getD y []).set x v) [] (fun hh => hiy hh.symm)]
    exact h2 i hi

theorem grid_step_row_spec (reg : Registry) (grid : Grid) (y H w : Nat) (hy : y < H) :
    ∀ (srow : List String) (x : Nat) (ng ng' : Grid), dims ng H w →
      grid_step_row reg grid y x srow ng = some ng' →
      dims ng' H w ∧
      (∀ i, i ≠ y → ng'.getD i [] = ng.getD i []) ∧
      (∀ c, c < x → (ng'.getD y []).getD c "" = (ng.getD y []).getD c "") ∧
      (∀ j, j < srow.length →
        step_cell reg grid (x + j) y (srow.getD j "") =
          some ((ng'.getD y []).getD (x + j) "")) := by
  intro srow
  induction srow with
  | nil =>
    intro x ng ng' hd h
    have hng : ng = ng' := by simpa [grid_step_row] using h
    subst hng
    exact ⟨hd, fun i _ => rfl, fun c _ => rfl, fun j hj => by simp at hj⟩
  | cons s rest IH =>
    intro x ng ng' hd h
    rw [grid_step_row] at h
    split at h
    · exact absurd h (by simp)
    · next v hsc =>
      split at h
      · exact absurd h (by simp)
      · next ng2 hset =>
        obtain ⟨hxlen, hng2⟩ := set_cell_spec ng y x v ng2 hset
        have hylen : y < ng.length := by rw [hd.1]; exact hy
        subst hng2
        have hd2 : dims (ng.set y ((ng.getD y []).set x v)) H w :=
          dims_set ng H w y x v hd hy
        obtain ⟨hd', hrows, hprev, hvals⟩ := IH (x + 1) _ ng' hd2 h
        have hrowy : ((ng.set y ((ng.getD y []).set x v)).getD y []) =
            (ng.getD y []).set x v := getD_set_self ng y _ [] hylen
        refine ⟨hd', ?_, ?_, ?_⟩
        · intro i hi
          rw [hrows i hi]
          exact getD_set_ne ng y i _ [] (fun hh => hi hh.symm)
        · intro c hc
          rw [hprev c (by omega), hrowy]
          exact getD_set_ne (ng.getD y []) x c v "" (by omega)
        · intro j hj
          cases j with
          | zero =>
            have hval : (ng'.getD y []).getD x "" = v := by
              rw [hprev x (by omega), hrowy]
              exact getD_set_self (ng.getD y []) x v "" hxlen
            simp only [Nat.add_zero, List.getD_cons_zero]
            rw [hval, hsc]
          | succ j' =>
            have hj' : j' < rest.length := by
              simp only [List.length_cons] at hj; omega
            have hstep' := hvals j' hj'
            have harith : x + (j' + 1) = (x + 1) + j' := by omega
            rw [harith]
            simpa [List.getD_cons_succ] using hstep'

theorem grid_step_rows_spec (reg : Registry) (grid : Grid) (H w : Nat) :
    ∀ (rows : List (List String)) (y : Nat) (ng ng' : Grid), dims ng H w →
      y + rows.length ≤ H →
      grid_step_rows reg grid y rows ng = some ng' →
      dims ng' H w ∧
      (∀ i, i < y → ng'.getD i [] = ng.getD i []) ∧
      (∀ j, j < rows.length → ∀ x, x < (rows.getD j []).length →
        step_cell reg grid x (y + j) ((rows.getD j []).getD x "") =
          some ((ng'.getD (y + j) []).getD x "")) := by
  intro rows
  induction rows with
  | nil =>
    intro y ng ng' hd hle h
    have hng : ng = ng' := by simpa [grid_step_rows] using h
    subst hng
    exact ⟨hd, fun i _ => rfl, fun j hj => by simp at hj⟩
  | cons row rest IH =>
    intro y ng ng' hd hle h
    rw [grid_step_rows] at h
    split at h
    · exact absurd h (by simp)
    · next ng2 hrow =>
      have hy : y < H := by simp only [List.length_cons] at hle; omega
      obtain ⟨hd2, hother, hprev0, hvals0⟩ :=
        grid_step_row_spec reg grid y H w hy row 0 ng ng2 hd hrow
      obtain ⟨hd', hbelow, hvals'⟩ :=
        IH (y + 1) ng2 ng' hd2 (by simp only [List.length_cons] at hle; omega) h
      refine ⟨hd', ?_, ?_⟩
      · intro i hi
        rw [hbelow i (by omega), hother i (by omega)]
      · intro j hj x hx
        cases j with
        | zero =>
          have hx' : x < row.length := by simpa [List.getD_cons_zero] using hx
          have h1 := hvals0 x hx'
          have hy' : ng'.getD y [] = ng2.getD y [] := hbelow y (by omega)
          simp only [Nat.add_zero, List.getD_cons_zero]
          simp only [Nat.zero_add] at h1
          rw [hy']
          exact h1
        | succ j' =>
          have hj'' : j' < rest.length := by
            simp only [List.length_cons] at hj; omega
          have hx' : x < (rest.getD j' []).length := by
            simpa [List.getD_cons_succ] using hx
          have hstep' := hvals' j' hj'' x hx'
          have harith : y + (j' + 1) = (y + 1) + j' := by omega
          rw [harith]
          simpa [List.getD_cons_succ] using hstep'

theorem grid_step_spec (reg : Registry) (grid out : Grid)
    (h : grid_step reg grid = some out) :
    out.length = grid.length ∧
    (∀ i, i < grid.length → (out.getD i []).length = (grid.getD 0 []).length) ∧
    (∀ y, y < grid.length → ∀ x, x < (grid.getD y []).length →
      step_cell reg grid x y ((grid.getD y []).getD x "") =
        some ((out.getD y []).getD x "")) := by
  cases grid with
  | nil =>
    have hout : ([] : Grid) = out := by simpa [grid_step] using h
    subst hout
    exact ⟨rfl, fun i hi => by simp at hi, fun y hy => by simp at hy⟩
  | cons r0 rest =>
    rw [grid_step] at h
    have hd0 : dims (List.replicate (r0 :: rest).length (List.replicate r0.length EMPTY_VALUE))
        (r0 :: rest).length r0.length := by
      refine ⟨List.length_replicate _ _, ?_⟩
      intro i hi
      rw [getD_replicate_of_lt _ _ _ _ hi]
      exact List.length_replicate _ _
    obtain ⟨hd', _, hvals⟩ :=
      grid_step_rows_spec reg (r0 :: rest) (r0 :: rest).length r0.length
        (r0 :: rest) 0 _ out hd0 (by omega) h
    refine ⟨hd'.1, ?_, ?_⟩
    · intro i hi
      rw [List.getD_cons_zero]
      exact hd'.2 i hi
    · intro y hy x hx
      have hstep' := hvals y hy x hx
      simpa [Nat.zero_add] using hstep'

theorem run_rules_first (grid : Grid) (x y : Nat) (s : String) :
    ∀ (pre : List (Pattern × String)) (p : Pattern) (r : String)
      (post : List (Pattern × String)),
      (∀ q ∈ pre, ∃ nb, get_neighborhood grid x y q.1.neighborhood_type = some nb ∧
        cell_pattern_match q.1 nb = some false) →
      (∃ nb, get_neighborhood grid x y p.neighborhood_type = some nb ∧
        cell_pattern_match p nb = some true) →
      run_rules grid x y s (pre ++ (p, r) :: post) = some r := by
  intro pre
  induction pre with
  | nil =>
    intro p r post _ hm
    obtain ⟨nb, h1, h2⟩ := hm
    simp [run_rules, h1, h2]
  | cons q pre' IH =>
    intro p r post hpre hm
    obtain ⟨qp, qr⟩ := q
    obtain ⟨nb, h1, h2⟩ := hpre (qp, qr) (by simp)
    have h1' : get_neighborhood grid x y qp.neighborhood_type = some nb := h1
    have h2' : cell_pattern_match qp nb = some false := h2
    simp only [List.cons_append, run_rules, h1', h2']
    exact IH p r post (fun q' hq' => hpre q' (by simp [hq'])) hm

/-- Claim C9: a successful `grid_step` is a pure function of the pre-step
grid: it returns a fresh grid of identical dimensions and every output cell
is exactly the per-cell evaluation `step_cell` against the unmodified input
grid (snapshot / double-buffer semantics). -/
theorem grid_step_snapshot (reg : Registry) (grid out : Grid) (w : Nat)
    (hrect : ∀ row ∈ grid, row.length = w)
    (hstep : grid_step reg grid = some out) :
    out.length = grid.length ∧
    (∀ i, i < grid.length → (out.getD i []).length = w) ∧
    (∀ y x, y < grid.length → x < w →
      step_cell reg grid x y ((grid.getD y []).getD x "") =
        some ((out.getD y []).getD x "")) := by
  obtain ⟨h1, h2, h3⟩ := grid_step_spec reg grid out hstep
  cases grid with
  | nil =>
    exact ⟨h1, fun i hi => by simp at hi, fun y x hy hx => by simp at hy⟩
  | cons r0 rest =>
    have h0 : (((r0 :: rest) : Grid).getD 0 []).length = w :=
      row_len (r0 :: rest) w hrect 0 (by simp)
    refine ⟨h1, fun i hi => by rw [h2 i hi]; exact h0, fun y x hy hx => ?_⟩
    exact h3 y hy x (by rw [row_len (r0 :: rest) w hrect y hy]; exact hx)

/-- Witness for C9 on a concrete one-cell grid. -/
theorem grid_step_snapshot_witness :
    ([["r2"]] : Grid).length = ([["a"]] : Grid).length ∧
    (∀ i, i < ([["a"]] : Grid).length → ((([["r2"]] : Grid).getD i []).length = 1)) ∧
    (∀ y x, y < ([["a"]] : Grid).length → x < 1 →
      step_cell regTwoRules [["a"]] x y ((([["a"]] : Grid).getD y []).getD x "") =
        some ((([["r2"]] : Grid).getD y []).getD x "")) :=
  grid_step_snapshot regTwoRules [["a"]] [["r2"]] 1 (by decide) (by decide)

/-- Claim C6: first match wins — when a cell's state has rules
`pre ++ (p, r) :: post`, all rules in `pre` fail to match, and `p` matches,
the step writes `r` (the earliest registered matching rule's result) to the
output cell; later matching rules are never applied. -/
theorem first_match_wins (reg : Registry) (grid out : Grid) (w x y : Nat) (c : Cell)
    (pre : List (Pattern × String)) (p : Pattern) (r : String)
    (post : List (Pattern × String))
    (hrect : ∀ row ∈ grid, row.length = w)
    (hstep : grid_step reg grid = some out)
    (hy : y < grid.length) (hx : x < w)
    (hreg : registry_find reg ((grid.getD y []).getD x "") = some c)
    (hrules : c.rules = pre ++ (p, r) :: post)
    (hpre : ∀ q ∈ pre, ∃ nb, get_neighborhood grid x y q.1.neighborhood_type = some nb ∧
      cell_pattern_match q.1 nb = some false)
    (hmatch : ∃ nb, get_neighborhood grid x y p.neighborhood_type = some nb ∧
      cell_pattern_match p nb = some true) :
    (out.getD y []).getD x "" = r := by
  obtain ⟨_, _, hvals⟩ := grid_step_spec reg grid out hstep
  have hx' : x < (grid.getD y []).length := by
    rw [row_len grid w hrect y hy]; exact hx
  have h1 := hvals y hy x hx'
  have h2 : step_cell reg grid x y ((grid.getD y []).getD x "") = some r := by
    unfold step_cell
    rw [hreg]
    show run_rules grid x y ((grid.getD y []).getD x "") c.rules = some r
    rw [hrules]
    exact run_rules_first grid x y _ pre p r post hpre hmatch
  rw [h2] at h1
  exact (Option.some_inj.mp h1).symm

/-- Witness for C6: state `"a"` has a failing rule registered before a
matching one; the output cell holds the second rule's result. -/
theorem first_match_wins_witness :
    (([["r2"]] : Grid).getD 0 []).getD 0 "" = "r2" := by
  refine first_match_wins regTwoRules [["a"]] [["r2"]] 1 0 0
    (Cell.mk "a" [(ruleP1, "r1"), (ruleP2, "r2")] []) [(ruleP1, "r1")] ruleP2 "r2" []
    (by decide) (by decide) (by decide) (by decide) (by decide) rfl ?_ ?_
  · intro q hq
    have hq' : q = (ruleP1, "r1") := by simpa using hq
    subst hq'
    exact ⟨["a", "border", "border", "border", "border"], by decide, by decide⟩
  · exact ⟨["a", "border", "border", "border", "border"], by decide, by decide⟩

/-- Counterexample to C10 as stated: on a zero-row grid the outer
`range(len(grid))` is empty, so the allocation never evaluates `grid[0]`;
`grid_step` succeeds and returns the empty grid instead of raising. -/
theorem grid_step_empty_counterexample :
    grid_step ([] : Registry) ([] : Grid) = some ([] : Grid) := rfl

/-- Claim C10 (amended): `grid_step` on a zero-row grid succeeds and returns
the empty grid (the allocation's `grid[0]` is never evaluated when there are
no rows); on a grid with at least one row the allocation uses the first
row's length as the width: a successful step returns one output row per
input row, each of the first input row's length. -/
theorem grid_step_empty_and_dims (reg : Registry) :
    grid_step reg [] = some [] ∧
    ∀ (r0 : List String) (rest out : Grid),
      grid_step reg (r0 :: rest) = some out →
      out.length = rest.length + 1 ∧ ∀ row ∈ out, row.length = r0.length := by
  refine ⟨rfl, ?_⟩
  intro r0 rest out h
  obtain ⟨h1, h2, _⟩ := grid_step_spec reg (r0 :: rest) out h
  refine ⟨by simpa using h1, ?_⟩
  intro row hrow
  obtain ⟨i, hi, hrw⟩ := List.mem_iff_getElem.mp hrow
  have hlen : (out.getD i []).length = (((r0 :: rest) : Grid).getD 0 []).length :=
    h2 i (by rw [← h1]; exact hi)
  rw [getD_eq_getElem_of_lt out i [] hi, hrw] at hlen
  simpa using hlen

/-- Witness for C10: the empty grid steps to the empty grid; a one-row grid
steps with preserved dimensions. -/
theorem grid_step_empty_and_dims_witness :
    grid_step regTwoRules [] = some [] ∧
    (([["r2"]] : Grid).length = ([] : Grid).length + 1 ∧
      ∀ row ∈ ([["r2"]] : Grid), row.length = (["a"] : List String).length) :=
  ⟨(grid_step_empty_and_dims regTwoRules).1,
    (grid_step_empty_and_dims regTwoRules).2 ["a"] [] [["r2"]] (by decide)⟩

/-- Claim C1: end-to-end sand-fall scenario — with `"empty"` and `"sand"`
registered and the two falling-sand rules added, one step moves the sand
from row 1 col 1 to row 2 col 1, a second step moves it to row 3 col 1,
and a third step leaves the grid unchanged. -/
theorem sand_fall_scenario :
    sandScenarioRegistry.bind (fun reg => grid_step reg sand_grid_0) = some sand_grid_1 ∧
    sandScenarioRegistry.bind (fun reg => grid_step reg sand_grid_1) = some sand_grid_2 ∧
    sandScenarioRegistry.bind (fun reg => grid_step reg sand_grid_2) = some sand_grid_2 := by
  refine ⟨?_, ?_, ?_⟩ <;> decide

end Calib
